import Mathlib

/-!
Verification of `openhtf/io/rundata.py`.

The module stores "run data" for a running OpenHTF station as a JSON file and
reads such files back.  We embed the module shallowly:

* `Json` models the Python values that `json.loads` produces / `json.dumps`
  consumes for this module (strings, arbitrary-precision integers, booleans,
  `None`, lists and dicts).  Floating point numbers never occur in this
  module's data model (the spec's format uses only strings and integers), so
  the model's grammar covers the integer fragment of JSON.
* A Python `dict` is modelled canonically as an association list whose keys
  are strictly sorted by code-point order (`dict` equality in Python ignores
  insertion order, and `json.dumps(..., sort_keys=True)` serialises in sorted
  key order, so the sorted list is a faithful canonical representative).
* `dumpsVal` implements `json.dumps(data, sort_keys=True, indent=4,
  separators=(',', ': '))` (with the default `ensure_ascii=True` escaping).
* `parseValue`/`jsonLoads` implement `json.loads` on that fragment
  (whitespace handling, string escapes including surrogate pairs, integers,
  nested arrays and objects).  Lone surrogate escapes are rejected (a Lean
  `Char` cannot represent them).
* `RunData` holds the five dynamically-typed fields of the source namedtuple;
  a field may be any decoded JSON value because `collections.namedtuple`
  performs no type validation.
* The filesystem is modelled as an association list of path/content pairs
  for `SaveToFile`, and a directory listing as a list of `DirEntry` for
  `EnumerateRunDirectory`.
* `os.kill(pid, 0)` is modelled by an oracle `Int → KillOutcome`.
-/

set_option maxHeartbeats 1000000

/-- Model of the JSON/Python values handled by the module (integer fragment
of JSON; `obj` is a Python dict in canonical strictly-key-sorted form). -/
inductive Json where
  | null : Json
  | bool (b : Bool) : Json
  | int (n : Int) : Json
  | str (s : String) : Json
  | arr (items : List Json) : Json
  | obj (members : List (String × Json)) : Json

/-- Code-point lexicographic comparison of character lists, modelling Python
`str` comparison (used by `sort_keys=True` and by our canonical dicts). -/
def charsLt : List Char → List Char → Bool
  | [], [] => false
  | [], _ :: _ => true
  | _ :: _, [] => false
  | a :: as, b :: bs => if a = b then charsLt as bs else decide (a.toNat < b.toNat)

/-- Insert a key/value pair into a canonical (sorted) dict, replacing the
value if the key is already present; models Python `d[k] = v`. -/
def insertKV (kvs : List (String × Json)) (k : String) (v : Json) : List (String × Json) :=
  match kvs with
  | [] => [(k, v)]
  | (k', v') :: rest =>
    if k = k' then (k, v) :: rest
    else if charsLt k.data k'.data then (k, v) :: (k', v') :: rest
    else (k', v') :: insertKV rest k v

/-- Lowercase hexadecimal digit, as used by Python's `\uXXXX` escapes. -/
def hexDigitChar (n : Nat) : Char :=
  if n < 10 then Char.ofNat (48 + n) else Char.ofNat (87 + n)

/-- Six-character `\uXXXX` escape for a code unit `n < 0x10000`. -/
def uEscape (n : Nat) : List Char :=
  ['\\', 'u', hexDigitChar (n / 4096 % 16), hexDigitChar (n / 256 % 16),
   hexDigitChar (n / 16 % 16), hexDigitChar (n % 16)]

/-- Escaping of one character by `json.dumps` with the default
`ensure_ascii=True`: printable ASCII (except quote and backslash) verbatim,
the named C0 escapes, `\uXXXX` for all other BMP characters and a surrogate
pair of escapes for astral characters. -/
def escapeChar (c : Char) : List Char :=
  if c = '"' then ['\\', '"']
  else if c = '\\' then ['\\', '\\']
  else if c.toNat = 8 then ['\\', 'b']
  else if c.toNat = 9 then ['\\', 't']
  else if c.toNat = 10 then ['\\', 'n']
  else if c.toNat = 12 then ['\\', 'f']
  else if c.toNat = 13 then ['\\', 'r']
  else if 32 ≤ c.toNat ∧ c.toNat ≤ 126 then [c]
  else if c.toNat < 65536 then uEscape c.toNat
  else uEscape (55296 + (c.toNat - 65536) / 1024) ++ uEscape (56320 + (c.toNat - 65536) % 1024)

/-- Escape every character of a string body. -/
def escList (cs : List Char) : List Char :=
  cs.foldr (fun c acc => escapeChar c ++ acc) []

/-- JSON string literal (quotes plus escaped body) for a Python string. -/
def encodeStr (s : String) : List Char :=
  '"' :: escList s.data ++ ['"']

/-- Decimal digit character. -/
def digitChar (d : Nat) : Char := Char.ofNat (48 + d)

/-- Decimal digits of a natural number, most significant first, accumulated
onto `acc`; models Python `str(n)` for `n ≥ 0`. -/
def natRepGo (n : Nat) (acc : List Char) : List Char :=
  if _h : n < 10 then digitChar n :: acc
  else natRepGo (n / 10) (digitChar (n % 10) :: acc)
termination_by n
decreasing_by exact Nat.div_lt_self (by omega) (by omega)

/-- Decimal representation of an integer; models Python `str(i)` (which is
what `json.dumps` emits for an `int`). -/
def intRepr (i : Int) : List Char :=
  if i < 0 then '-' :: natRepGo i.natAbs [] else natRepGo i.toNat []

/-- Newline plus the 4-space-per-level indentation emitted by
`json.dumps(..., indent=4)` before an item at nesting `level`. -/
def newlineIndent (level : Nat) : List Char :=
  '\n' :: List.replicate (4 * level) ' '

mutual

/-- Serialisation of one value at nesting `level`, implementing
`json.dumps(value, sort_keys=True, indent=4, separators=(',', ': '))`
(the dict members of `.obj` are already in sorted key order because dicts
are canonical). -/
def dumpsVal (level : Nat) : Json → List Char
  | .null => "null".data
  | .bool true => "true".data
  | .bool false => "false".data
  | .int i => intRepr i
  | .str s => encodeStr s
  | .arr [] => ['[', ']']
  | .arr (x :: xs) =>
    '[' :: (newlineIndent (level + 1) ++ dumpsVal (level + 1) x ++
      dumpsItems (level + 1) xs ++ newlineIndent level ++ [']'])
  | .obj [] => ['\x7b', '\x7d']
  | .obj ((k, v) :: kvs) =>
    '\x7b' :: (newlineIndent (level + 1) ++ encodeStr k ++ (':' :: ' ' ::
      dumpsVal (level + 1) v) ++ dumpsMembers (level + 1) kvs ++
      newlineIndent level ++ ['\x7d'])

/-- Remaining array items: item separator `','` followed by newline+indent. -/
def dumpsItems (level : Nat) : List Json → List Char
  | [] => []
  | x :: xs => ',' :: (newlineIndent level ++ dumpsVal level x ++ dumpsItems level xs)

/-- Remaining dict members: `','`, newline+indent, key, `': '`, value. -/
def dumpsMembers (level : Nat) : List (String × Json) → List Char
  | [] => []
  | (k, v) :: kvs =>
    ',' :: (newlineIndent level ++ encodeStr k ++ (':' :: ' ' ::
      dumpsVal level v) ++ dumpsMembers level kvs)

end

/-- JSON insignificant whitespace (the characters `json.loads` skips). -/
def isWsChar (c : Char) : Bool :=
  c = ' ' || c = '\t' || c = '\n' || c = '\r'

/-- Skip leading whitespace. -/
def skipWs : List Char → List Char
  | [] => []
  | c :: rest => if isWsChar c then skipWs rest else c :: rest

/-- Value of a hexadecimal digit character, if it is one. -/
def hexValOf (c : Char) : Option Nat :=
  if 48 ≤ c.toNat ∧ c.toNat ≤ 57 then some (c.toNat - 48)
  else if 97 ≤ c.toNat ∧ c.toNat ≤ 102 then some (c.toNat - 87)
  else if 65 ≤ c.toNat ∧ c.toNat ≤ 70 then some (c.toNat - 55)
  else none

/-- Prefix the character list of a successful string-body parse. -/
def consChar (c : Char) (o : Option (List Char × List Char)) :
    Option (List Char × List Char) :=
  o.map fun p => (c :: p.1, p.2)

/-- Combined value of four hexadecimal digit characters. -/
def hex4 (a b c d : Char) : Option Nat :=
  match hexValOf a, hexValOf b, hexValOf c, hexValOf d with
  | some ha, some hb, some hc, some hd => some (ha * 4096 + hb * 256 + hc * 16 + hd)
  | _, _, _, _ => none

/-- Decode the second half of a surrogate-pair escape (`hi` is the leading
high surrogate, the input starts at the expected `\uXXXX`). -/
def parseLowSurrogate (hi : Nat) : List Char → Option (Char × List Char)
  | s1 :: s2 :: a :: b :: c :: d :: r4 =>
    if s1 = '\\' ∧ s2 = 'u' then
      (hex4 a b c d).bind fun m =>
        if 56320 ≤ m ∧ m ≤ 57343 then
          some (Char.ofNat (65536 + (hi - 55296) * 1024 + (m - 56320)), r4)
        else none
    else none
  | _ => none

/-- Decode a `\uXXXX` escape body (input starts at the first hex digit),
combining surrogate pairs as Python's decoder does.  Lone surrogates are
rejected (see the module model notes). -/
def parseUEscape : List Char → Option (Char × List Char)
  | a :: b :: c :: d :: r3 =>
    (hex4 a b c d).bind fun n =>
      if 55296 ≤ n ∧ n ≤ 56319 then parseLowSurrogate n r3
      else if 56320 ≤ n ∧ n ≤ 57343 then none
      else some (Char.ofNat n, r3)
  | _ => none

/-- Decode one backslash escape (input starts after the backslash). -/
def parseEscape : List Char → Option (Char × List Char)
  | [] => none
  | e :: r2 =>
    if e = '"' then some ('"', r2)
    else if e = '\\' then some ('\\', r2)
    else if e = '/' then some ('/', r2)
    else if e = 'b' then some (Char.ofNat 8, r2)
    else if e = 't' then some (Char.ofNat 9, r2)
    else if e = 'n' then some (Char.ofNat 10, r2)
    else if e = 'f' then some (Char.ofNat 12, r2)
    else if e = 'r' then some (Char.ofNat 13, r2)
    else if e = 'u' then parseUEscape r2
    else none

/-- Parse the body of a JSON string literal after the opening quote, up to
and including the closing quote; returns the decoded characters and the rest
of the input.  Follows Python's decoder: backslash escapes via
`parseEscape`, raw characters at or above `0x20`.  `fuel` bounds the
recursion; callers pass more than the input length. -/
def parseStringBody : Nat → List Char → Option (List Char × List Char)
  | 0, _ => none
  | fuel + 1, input =>
    match input with
    | [] => none
    | c :: r =>
      if c = '"' then some ([], r)
      else if c = '\\' then
        (parseEscape r).bind fun er => consChar er.1 (parseStringBody fuel er.2)
      else if c.toNat < 32 then none
      else consChar c (parseStringBody fuel r)

/-- Longest prefix of decimal digits and the rest of the input. -/
def takeDigits : List Char → List Char × List Char
  | [] => ([], [])
  | c :: r =>
    if 48 ≤ c.toNat ∧ c.toNat ≤ 57 then
      match takeDigits r with
      | (ds, r') => (c :: ds, r')
    else ([], c :: r)

/-- Numeric value of a list of decimal digit characters. -/
def digitsVal (ds : List Char) : Nat :=
  ds.foldl (fun a c => a * 10 + (c.toNat - 48)) 0

/-- Parse `null` after its leading `n`. -/
def parseNullRest : List Char → Option (Json × List Char)
  | 'u' :: 'l' :: 'l' :: r2 => some (.null, r2)
  | _ => none

/-- Parse `true` after its leading `t`. -/
def parseTrueRest : List Char → Option (Json × List Char)
  | 'r' :: 'u' :: 'e' :: r2 => some (.bool true, r2)
  | _ => none

/-- Parse `false` after its leading `f`. -/
def parseFalseRest : List Char → Option (Json × List Char)
  | 'a' :: 'l' :: 's' :: 'e' :: r2 => some (.bool false, r2)
  | _ => none

/-- Parse the digits of a number (input starts at the first digit; `neg`
tells whether a minus sign was consumed).  The model accepts leading zeros,
which strict Python rejects; `json.dumps` never emits them. -/
def parseNumRest (neg : Bool) (input : List Char) : Option (Json × List Char) :=
  if (takeDigits input).1 = [] then none
  else if neg then some (.int (-(digitsVal (takeDigits input).1 : Int)), (takeDigits input).2)
  else some (.int (digitsVal (takeDigits input).1 : Int), (takeDigits input).2)

mutual

/-- Parse one JSON value at the head of the input (no leading whitespace).
`fuel` bounds the recursion; `jsonLoads` supplies more fuel than any input
can consume. -/
def parseValue : Nat → List Char → Option (Json × List Char)
  | 0, _ => none
  | fuel + 1, input =>
    match input with
    | [] => none
    | c :: r =>
      if c = 'n' then parseNullRest r
      else if c = 't' then parseTrueRest r
      else if c = 'f' then parseFalseRest r
      else if c = '"' then
        (parseStringBody (r.length + 1) r).map fun p => (.str ⟨p.1⟩, p.2)
      else if c = '\x7b' then parseObjRest fuel (skipWs r)
      else if c = '[' then parseArrRest fuel (skipWs r)
      else if c = '-' then parseNumRest true r
      else parseNumRest false (c :: r)

/-- Parse an object after its opening brace (leading whitespace skipped):
either an immediate closing brace, or a non-empty member list. -/
def parseObjRest : Nat → List Char → Option (Json × List Char)
  | 0, _ => none
  | fuel + 1, input =>
    match input with
    | [] => none
    | c :: r2 =>
      if c = '\x7d' then some (.obj [], r2)
      else (parseMembers fuel (c :: r2) []).map fun p => (.obj p.1, p.2)

/-- Parse an array after its opening bracket (leading whitespace skipped):
either an immediate closing bracket, or a non-empty item list. -/
def parseArrRest : Nat → List Char → Option (Json × List Char)
  | 0, _ => none
  | fuel + 1, input =>
    match input with
    | [] => none
    | c :: r2 =>
      if c = ']' then some (.arr [], r2)
      else (parseItems fuel (c :: r2) []).map fun p => (.arr p.1, p.2)

/-- Parse the members of a non-empty JSON object (input starts at the first
key), accumulating them into the canonical dict `acc` exactly as Python's
decoder stores each pair into the result dict. -/
def parseMembers : Nat → List Char → List (String × Json) →
    Option (List (String × Json) × List Char)
  | 0, _, _ => none
  | fuel + 1, input, acc =>
    match input with
    | [] => none
    | c :: r =>
      if c = '"' then
        (parseStringBody (r.length + 1) r).bind fun kr =>
          parseMembersColon fuel (skipWs kr.2) ⟨kr.1⟩ acc
      else none

/-- After an object key: expect `':'`, then the value, then the separator. -/
def parseMembersColon : Nat → List Char → String → List (String × Json) →
    Option (List (String × Json) × List Char)
  | 0, _, _, _ => none
  | fuel + 1, input, key, acc =>
    match input with
    | [] => none
    | c :: r2 =>
      if c = ':' then
        (parseValue fuel (skipWs r2)).bind fun vr =>
          parseMembersSep fuel (skipWs vr.2) (insertKV acc key vr.1)
      else none

/-- After one object member: a comma continues, a closing brace ends. -/
def parseMembersSep : Nat → List Char → List (String × Json) →
    Option (List (String × Json) × List Char)
  | 0, _, _ => none
  | fuel + 1, input, acc =>
    match input with
    | [] => none
    | c :: r4 =>
      if c = ',' then parseMembers fuel (skipWs r4) acc
      else if c = '\x7d' then some (acc, r4)
      else none

/-- Parse the items of a non-empty JSON array (input starts at the first
item). -/
def parseItems : Nat → List Char → List Json → Option (List Json × List Char)
  | 0, _, _ => none
  | fuel + 1, input, acc =>
    (parseValue fuel input).bind fun vr => parseItemsSep fuel (skipWs vr.2) (acc ++ [vr.1])

/-- After one array item: a comma continues, a closing bracket ends. -/
def parseItemsSep : Nat → List Char → List Json → Option (List Json × List Char)
  | 0, _, _ => none
  | fuel + 1, input, acc =>
    match input with
    | [] => none
    | c :: r2 =>
      if c = ',' then parseItems fuel (skipWs r2) acc
      else if c = ']' then some (acc, r2)
      else none

end

/-- Model of `json.loads` on the module's JSON fragment: parse one value
surrounded by optional whitespace; anything else is a parse error (`none`
models `ValueError`/`json.JSONDecodeError`). -/
def jsonLoads (s : String) : Option Json :=
  (parseValue (3 * (s.length + 1)) (skipWs s.data)).bind fun jr =>
    if skipWs jr.2 = [] then some jr.1 else none

/-- Errors of the decode pipeline, following the spec's taxonomy:
`parseError` is the ValueError-class failure of `json.loads`, `schemaError`
the TypeError-class failure of binding `cls(**decoded)`. -/
inductive RunDataError where
  | parseError : RunDataError
  | schemaError : RunDataError
deriving DecidableEq

/-- The `RunData` namedtuple.  Fields hold arbitrary decoded JSON values
because `collections.namedtuple` does not validate field types. -/
structure RunData where
  station_id : Json
  script_name : Json
  http_host : Json
  http_port : Json
  pid : Json

/-- Binding of a decoded JSON value to the constructor, modelling
`cls(**decoded)`: the value must be a dict (else `TypeError: argument after
** must be a mapping`), every field must be present (else a missing-argument
`TypeError`) and no unknown key may remain (else an unexpected-keyword
`TypeError`).  All these `TypeError`s are the spec's SchemaError class. -/
def RunData.fromDecoded : Json → Except RunDataError RunData
  | .obj kvs =>
    match kvs.lookup "station_id", kvs.lookup "script_name", kvs.lookup "http_host",
        kvs.lookup "http_port", kvs.lookup "pid" with
    | some sid, some sn, some hh, some hp, some p =>
      if kvs.length = 5 then .ok ⟨sid, sn, hh, hp, p⟩ else .error .schemaError
    | _, _, _, _, _ => .error .schemaError
  | _ => .error .schemaError

/-- Model of `RunData.FromFile` applied to the text read from the run file:
`decoded = json.loads(data); return cls(**decoded)`. -/
def RunData.FromFileContent (data : String) : Except RunDataError RunData :=
  match jsonLoads data with
  | none => .error .parseError
  | some decoded => RunData.fromDecoded decoded

/-- Model of `self._asdict()`: the fields as a dict, inserted in field
declaration order. -/
def RunData.asdict (r : RunData) : List (String × Json) :=
  insertKV (insertKV (insertKV (insertKV (insertKV []
    "station_id" r.station_id) "script_name" r.script_name)
    "http_host" r.http_host) "http_port" r.http_port) "pid" r.pid

/-- Model of `RunData.AsJSON`: `data = self._asdict()`, the (redundant)
reassignment `data['http_host'] = self.http_host`, then
`json.dumps(data, sort_keys=True, indent=4, separators=(',', ': '))`. -/
def RunData.AsJSON (r : RunData) : String :=
  ⟨dumpsVal 0 (.obj (insertKV r.asdict "http_host" r.http_host))⟩

/-- Model of `os.path.join(dir, name)` for POSIX paths (the two-argument
case used by the module). -/
def osPathJoin (dir name : String) : String :=
  if name.data.head? = some '/' then name
  else if dir = "" then name
  else if dir.data.getLast? = some '/' then dir ++ name
  else dir ++ "/" ++ name

/-- A filesystem fragment: association list from path to file content. -/
abbrev FileSystem := List (String × String)

/-- Model of `open(path, 'w')` followed by `write(content)`: replace the
content if the path exists, create the file otherwise. -/
def writeFile (fs : FileSystem) (path content : String) : FileSystem :=
  match fs with
  | [] => [(path, content)]
  | (p, c) :: rest =>
    if p = path then (p, content) :: rest else (p, c) :: writeFile rest path content

/-- Model of `RunData.SaveToFile`: join the directory with `station_id`,
write `AsJSON` there, return the filename.  `none` models the `TypeError`
`os.path.join` raises when `station_id` is not a string. -/
def RunData.SaveToFile (r : RunData) (directory : String) (fs : FileSystem) :
    Option (String × FileSystem) :=
  match r.station_id with
  | .str sid =>
    let filename := osPathJoin directory sid
    some (filename, writeFile fs filename r.AsJSON)
  | _ => none

/-- Outcome of the OS-level `os.kill(pid, 0)` probe. -/
inductive OSErrorKind where
  | esrch : OSErrorKind
  | eperm : OSErrorKind
  | otherError : OSErrorKind
deriving DecidableEq

/-- Result of `os.kill(pid, 0)`: either it returns normally or it raises an
`OSError` of some kind. -/
inductive KillOutcome where
  | success : KillOutcome
  | raises (e : OSErrorKind) : KillOutcome
deriving DecidableEq

/-- Model of `RunData.IsAlive` with the OS process table abstracted as the
oracle `osKill`: `os.kill(self.pid, 0)` inside `try/except OSError`.  The
`none` case models the `TypeError` that `os.kill` raises (and the method
does not catch) when `pid` is not an integer; for an integer pid the method
always returns a boolean. -/
def RunData.IsAlive (osKill : Int → KillOutcome) (r : RunData) : Option Bool :=
  match r.pid with
  | .int p =>
    match osKill p with
    | .success => some true
    | .raises _ => some false
  | _ => none

/-- One entry of a directory listing: a regular file with its content, or a
subdirectory with its own entries. -/
inductive DirEntry where
  | file (name content : String) : DirEntry
  | subdir (name : String) (entries : List DirEntry) : DirEntry

/-- Content selector implementing the `os.path.isfile(filepath)` test of the
list comprehension: only regular files pass. -/
def entryFileContent : DirEntry → Option String
  | .file _ content => some content
  | .subdir _ _ => none

/-- Left-to-right effectful map, modelling a Python list comprehension over
a fallible call: the first exception aborts the whole comprehension. -/
def mapExcept (f : α → Except ε β) : List α → Except ε (List β)
  | [] => .ok []
  | a :: as =>
    match f a with
    | .error e => .error e
    | .ok b =>
      match mapExcept f as with
      | .error e => .error e
      | .ok bs => .ok (b :: bs)

/-- Model of `EnumerateRunDirectory`: list the directory (in listing order),
keep the regular files, parse each with `RunData.FromFile`. -/
def EnumerateRunDirectory (entries : List DirEntry) : Except RunDataError (List RunData) :=
  mapExcept RunData.FromFileContent (entries.filterMap entryFileContent)

/-! Character-level facts used by the round-trip proofs. -/

theorem char_valid_ranges (c : Char) :
    c.toNat < 55296 ∨ (57343 < c.toNat ∧ c.toNat < 1114112) := c.valid

theorem char_toNat_lt (c : Char) : c.toNat < 1114112 := by
  rcases char_valid_ranges c with h | h
  · omega
  · omega

theorem toNat_ofNat_valid {n : Nat} (h : Nat.isValidChar n) : (Char.ofNat n).toNat = n := by
  rw [Char.ofNat, dif_pos h]
  simp [Char.ofNatAux, Char.toNat, UInt32.toNat, BitVec.toNat_ofNatLt]

theorem hexValOf_hexDigitChar {n : Nat} (h : n < 16) : hexValOf (hexDigitChar n) = some n := by
  unfold hexDigitChar
  by_cases h10 : n < 10
  · rw [if_pos h10]
    have ht : (Char.ofNat (48 + n)).toNat = 48 + n := toNat_ofNat_valid (by left; omega)
    unfold hexValOf
    rw [ht, if_pos (by omega)]
    congr 1
    omega
  · rw [if_neg h10]
    have ht : (Char.ofNat (87 + n)).toNat = 87 + n := toNat_ofNat_valid (by left; omega)
    unfold hexValOf
    rw [ht, if_neg (by omega), if_pos (by omega)]
    congr 1
    omega


theorem hex4_uEscapeDigits {n : Nat} (h : n < 65536) :
    hex4 (hexDigitChar (n / 4096 % 16)) (hexDigitChar (n / 256 % 16))
      (hexDigitChar (n / 16 % 16)) (hexDigitChar (n % 16)) = some n := by
  rw [hex4, hexValOf_hexDigitChar (by omega), hexValOf_hexDigitChar (by omega),
    hexValOf_hexDigitChar (by omega), hexValOf_hexDigitChar (by omega)]
  have : n / 4096 % 16 * 4096 + n / 256 % 16 * 256 + n / 16 % 16 * 16 + n % 16 = n := by
    omega
  simp [this]

theorem escList_cons (c : Char) (cs : List Char) :
    escList (c :: cs) = escapeChar c ++ escList cs := by
  simp [escList]

/-- Parsing a string body undoes `json.dumps` escaping: the core round-trip
fact for string fields. -/
theorem parseStringBody_escList (cs : List Char) :
    ∀ (fuel : Nat) (rest : List Char), cs.length < fuel →
      parseStringBody fuel (escList cs ++ '"' :: rest) = some (cs, rest) := by
  induction cs with
  | nil =>
    intro fuel rest hlen
    match fuel, hlen with
    | f + 1, _ => simp [escList, parseStringBody]
  | cons c cs ih =>
    intro fuel rest hlen
    match fuel, hlen with
    | f + 1, hlen =>
    have ihf := ih f rest (by simp at hlen; omega)
    rw [escList_cons, List.append_assoc]
    unfold escapeChar
    split_ifs with h1 h2 h3 h4 h5 h6 h7 h8 h9
    · simp [parseStringBody, parseEscape, consChar, ihf, h1]
    · simp [parseStringBody, parseEscape, consChar, ihf, h2]
    · have hc : Char.ofNat 8 = c := by rw [← h3]; exact Char.ofNat_toNat c
      simp [parseStringBody, parseEscape, consChar, ihf]
      exact hc
    · have hc : Char.ofNat 9 = c := by rw [← h4]; exact Char.ofNat_toNat c
      simp [parseStringBody, parseEscape, consChar, ihf]
      exact hc
    · have hc : Char.ofNat 10 = c := by rw [← h5]; exact Char.ofNat_toNat c
      simp [parseStringBody, parseEscape, consChar, ihf]
      exact hc
    · have hc : Char.ofNat 12 = c := by rw [← h6]; exact Char.ofNat_toNat c
      simp [parseStringBody, parseEscape, consChar, ihf]
      exact hc
    · have hc : Char.ofNat 13 = c := by rw [← h7]; exact Char.ofNat_toNat c
      simp [parseStringBody, parseEscape, consChar, ihf]
      exact hc
    · have h32 : ¬ c.toNat < 32 := by omega
      simp [parseStringBody, h1, h2, h32, consChar, ihf]
    · have hs1 : ¬ (55296 ≤ c.toNat ∧ c.toNat ≤ 56319) := by
        rcases char_valid_ranges c with h | h <;> omega
      have hs2 : ¬ (56320 ≤ c.toNat ∧ c.toNat ≤ 57343) := by
        rcases char_valid_ranges c with h | h <;> omega
      simp only [uEscape, List.cons_append, List.nil_append]
      rw [parseStringBody]
      simp only [Char.reduceEq, reduceIte]
      rw [parseEscape]
      simp only [Char.reduceEq, reduceIte]
      rw [parseUEscape, hex4_uEscapeDigits h9, Option.some_bind]
      rw [if_neg hs1, if_neg hs2, Option.some_bind]
      simp only [consChar]
      rw [ihf]
      simp only [Option.map_some']
      rw [Char.ofNat_toNat]
    · have hlt := char_toNat_lt c
      have hhiv : 55296 + (c.toNat - 65536) / 1024 < 65536 := by omega
      have hlov : 56320 + (c.toNat - 65536) % 1024 < 65536 := by omega
      have hhi : 55296 ≤ 55296 + (c.toNat - 65536) / 1024 ∧
          55296 + (c.toNat - 65536) / 1024 ≤ 56319 := by omega
      have hlo : 56320 ≤ 56320 + (c.toNat - 65536) % 1024 ∧
          56320 + (c.toNat - 65536) % 1024 ≤ 57343 := by omega
      rw [List.append_assoc]
      simp only [uEscape, List.cons_append, List.nil_append]
      rw [parseStringBody]
      simp only [Char.reduceEq, reduceIte]
      rw [parseEscape]
      simp only [Char.reduceEq, reduceIte]
      rw [parseUEscape, hex4_uEscapeDigits hhiv, Option.some_bind]
      rw [if_pos hhi, parseLowSurrogate]
      simp only [Char.reduceEq, and_self, reduceIte]
      rw [hex4_uEscapeDigits hlov, Option.some_bind]
      rw [if_pos hlo, Option.some_bind]
      simp only [consChar]
      rw [ihf]
      simp only [Option.map_some']
      rw [show 65536 + (55296 + (c.toNat - 65536) / 1024 - 55296) * 1024 +
        (56320 + (c.toNat - 65536) % 1024 - 56320) = c.toNat from by omega]
      rw [Char.ofNat_toNat]

/-! Decimal integer facts used by the round-trip proofs. -/

theorem natRepGo_lt {n : Nat} (h : n < 10) (acc : List Char) :
    natRepGo n acc = digitChar n :: acc := by
  rw [natRepGo.eq_def, dif_pos h]

theorem natRepGo_ge {n : Nat} (h : ¬ n < 10) (acc : List Char) :
    natRepGo n acc = natRepGo (n / 10) (digitChar (n % 10) :: acc) := by
  rw [natRepGo.eq_def, dif_neg h]

theorem natRepGo_eq_append (n : Nat) : ∀ (acc : List Char),
    natRepGo n acc = natRepGo n [] ++ acc := by
  induction n using Nat.strong_induction_on with
  | _ n ih =>
    intro acc
    by_cases h : n < 10
    · rw [natRepGo_lt h, natRepGo_lt h]
      simp
    · rw [natRepGo_ge h, natRepGo_ge h]
      rw [ih (n / 10) (Nat.div_lt_self (by omega) (by omega)) (digitChar (n % 10) :: acc),
        ih (n / 10) (Nat.div_lt_self (by omega) (by omega)) (digitChar (n % 10) :: [])]
      simp

theorem digitChar_toNat {d : Nat} (h : d < 10) : (digitChar d).toNat = 48 + d :=
  toNat_ofNat_valid (by left; omega)

theorem natRepGo_digits (n : Nat) :
    ∀ c ∈ natRepGo n [], 48 ≤ c.toNat ∧ c.toNat ≤ 57 := by
  induction n using Nat.strong_induction_on with
  | _ n ih =>
    by_cases h : n < 10
    · rw [natRepGo_lt h]
      intro c hc
      simp at hc
      subst hc
      rw [digitChar_toNat h]
      omega
    · rw [natRepGo_ge h, natRepGo_eq_append]
      intro c hc
      rcases List.mem_append.mp hc with hmem | hmem
      · exact ih (n / 10) (Nat.div_lt_self (by omega) (by omega)) c hmem
      · simp at hmem
        subst hmem
        rw [digitChar_toNat (by omega)]
        omega

theorem natRepGo_ne_nil (n : Nat) : natRepGo n [] ≠ [] := by
  by_cases h : n < 10
  · rw [natRepGo_lt h]
    simp
  · rw [natRepGo_ge h, natRepGo_eq_append]
    simp

/-- Character lists whose head (if any) is not a decimal digit: exactly the
continuations at which `takeDigits` stops. -/
def nonDigitStart : List Char → Prop
  | [] => True
  | c :: _ => ¬ (48 ≤ c.toNat ∧ c.toNat ≤ 57)

theorem takeDigits_append (ds : List Char) (rest : List Char)
    (hds : ∀ c ∈ ds, 48 ≤ c.toNat ∧ c.toNat ≤ 57) (hrest : nonDigitStart rest) :
    takeDigits (ds ++ rest) = (ds, rest) := by
  induction ds with
  | nil =>
    simp only [List.nil_append]
    match rest, hrest with
    | [], _ => rfl
    | c :: r, hrest => rw [takeDigits, if_neg hrest]
  | cons d ds ih =>
    rw [List.cons_append, takeDigits, if_pos (hds d (by simp))]
    rw [ih fun c hc => hds c (by simp [hc])]

theorem digitsVal_natRepGo (n : Nat) : digitsVal (natRepGo n []) = n := by
  induction n using Nat.strong_induction_on with
  | _ n ih =>
    by_cases h : n < 10
    · rw [natRepGo_lt h]
      simp [digitsVal, digitChar_toNat h]
    · rw [natRepGo_ge h, natRepGo_eq_append]
      rw [digitsVal, List.foldl_append]
      rw [show List.foldl (fun a c => a * 10 + (c.toNat - 48)) 0 (natRepGo (n / 10) []) =
        digitsVal (natRepGo (n / 10) []) from rfl]
      rw [ih (n / 10) (Nat.div_lt_self (by omega) (by omega))]
      simp [digitChar_toNat (show n % 10 < 10 by omega)]
      omega

/-! Parsing lemmas for serialised scalar values. -/

theorem escapeChar_length_pos (c : Char) : 1 ≤ (escapeChar c).length := by
  unfold escapeChar
  split_ifs <;> simp [uEscape]

theorem escList_length_ge (cs : List Char) : cs.length ≤ (escList cs).length := by
  induction cs with
  | nil => simp [escList]
  | cons c cs ih =>
    rw [escList_cons, List.length_append, List.length_cons]
    have := escapeChar_length_pos c
    omega

/-- A serialised string parses back as a string value, leaving the
continuation untouched. -/
theorem parseValue_encodeStr (fuel : Nat) (s : String) (X : List Char) :
    parseValue (fuel + 1) (encodeStr s ++ X) = some (.str s, X) := by
  have hshape : encodeStr s ++ X = '"' :: (escList s.data ++ ('"' :: X)) := by
    simp [encodeStr]
  rw [hshape, parseValue]
  simp only [Char.reduceEq, reduceIte]
  rw [parseStringBody_escList s.data ((escList s.data ++ '"' :: X).length + 1) X
    (by
      have h1 := escList_length_ge s.data
      simp only [List.length_append, List.length_cons]
      omega)]
  simp only [Option.map_some']

theorem nonDigit_ne_digits {c : Char} (h : 48 ≤ c.toNat ∧ c.toNat ≤ 57) :
    c ≠ 'n' ∧ c ≠ 't' ∧ c ≠ 'f' ∧ c ≠ '"' ∧ c ≠ '\x7b' ∧ c ≠ '[' ∧ c ≠ '-' := by
  refine ⟨?_, ?_, ?_, ?_, ?_, ?_, ?_⟩ <;>
    · intro he
      subst he
      revert h
      decide

/-- A serialised integer parses back as an integer value when the
continuation does not begin with a digit. -/
theorem parseValue_intRepr (fuel : Nat) (i : Int) (X : List Char)
    (hX : nonDigitStart X) :
    parseValue (fuel + 1) (intRepr i ++ X) = some (.int i, X) := by
  by_cases hneg : i < 0
  · rw [intRepr, if_pos hneg, List.cons_append, parseValue]
    simp only [Char.reduceEq, reduceIte]
    rw [parseNumRest, takeDigits_append _ _ (natRepGo_digits i.natAbs) hX]
    simp only [if_neg (natRepGo_ne_nil i.natAbs), if_pos rfl, reduceIte, digitsVal_natRepGo]
    have : -(i.natAbs : Int) = i := by omega
    rw [this]
  · rw [intRepr, if_neg hneg]
    obtain ⟨d, ds, hds⟩ : ∃ d ds, natRepGo i.toNat [] = d :: ds := by
      match hrep : natRepGo i.toNat [] with
      | [] => exact absurd hrep (natRepGo_ne_nil i.toNat)
      | d :: ds => exact ⟨d, ds, rfl⟩
    have hdig : 48 ≤ d.toNat ∧ d.toNat ≤ 57 :=
      natRepGo_digits i.toNat d (by rw [hds]; simp)
    obtain ⟨hn, ht, hf, hq, hb, hk, hm⟩ := nonDigit_ne_digits hdig
    rw [hds, List.cons_append, parseValue]
    simp only [hn, ht, hf, hq, hb, hk, hm, reduceIte]
    rw [← List.cons_append, ← hds, parseNumRest,
      takeDigits_append _ _ (natRepGo_digits i.toNat) hX]
    simp only [if_neg (natRepGo_ne_nil i.toNat), Bool.false_eq_true, reduceIte,
      digitsVal_natRepGo]
    have : ((i.toNat : Nat) : Int) = i := by omega
    rw [this]

/-! Whitespace lemmas for the serialised layout. -/

theorem skipWs_cons_of_not_ws {c : Char} (h : isWsChar c = false) (r : List Char) :
    skipWs (c :: r) = c :: r := by
  rw [skipWs, h]
  simp

theorem skipWs_encodeStr (s : String) (X : List Char) :
    skipWs (encodeStr s ++ X) = encodeStr s ++ X := by
  rw [show encodeStr s ++ X = '"' :: (escList s.data ++ ('"' :: X)) from by simp [encodeStr]]
  exact skipWs_cons_of_not_ws (by decide) _

theorem digit_not_ws {c : Char} (h : 48 ≤ c.toNat ∧ c.toNat ≤ 57) : isWsChar c = false := by
  unfold isWsChar
  have h1 : c ≠ ' ' := by intro he; subst he; revert h; decide
  have h2 : c ≠ '\t' := by intro he; subst he; revert h; decide
  have h3 : c ≠ '\n' := by intro he; subst he; revert h; decide
  have h4 : c ≠ '\r' := by intro he; subst he; revert h; decide
  simp [h1, h2, h3, h4]

theorem skipWs_intRepr (i : Int) (X : List Char) :
    skipWs (intRepr i ++ X) = intRepr i ++ X := by
  by_cases hneg : i < 0
  · rw [intRepr, if_pos hneg, List.cons_append]
    exact skipWs_cons_of_not_ws (by decide) _
  · rw [intRepr, if_neg hneg]
    obtain ⟨d, ds, hds⟩ : ∃ d ds, natRepGo i.toNat [] = d :: ds := by
      match hrep : natRepGo i.toNat [] with
      | [] => exact absurd hrep (natRepGo_ne_nil i.toNat)
      | d :: ds => exact ⟨d, ds, rfl⟩
    have hdig : 48 ≤ d.toNat ∧ d.toNat ≤ 57 :=
      natRepGo_digits i.toNat d (by rw [hds]; simp)
    rw [hds, List.cons_append]
    exact skipWs_cons_of_not_ws (digit_not_ws hdig) _

theorem skipWs_newlineIndent1 (R : List Char) :
    skipWs (newlineIndent 1 ++ R) = skipWs R := by
  simp only [newlineIndent, List.replicate, Nat.reduceMul, List.cons_append,
    List.nil_append]
  rw [skipWs, skipWs, skipWs, skipWs, skipWs]
  simp [isWsChar]

/-! Parsing one serialised object member. -/

theorem parseMembers_step (fuel : Nat) (k : String) (v : Json) (vc X : List Char)
    (acc : List (String × Json))
    (hval : parseValue fuel (vc ++ X) = some (v, X))
    (hws : skipWs (vc ++ X) = vc ++ X) :
    parseMembers (fuel + 2) (encodeStr k ++ (':' :: ' ' :: (vc ++ X))) acc
      = parseMembersSep fuel (skipWs X) (insertKV acc k v) := by
  rw [show encodeStr k ++ (':' :: ' ' :: (vc ++ X))
      = '"' :: (escList k.data ++ ('"' :: (':' :: ' ' :: (vc ++ X)))) from by simp [encodeStr]]
  rw [parseMembers]
  simp only [Char.reduceEq, reduceIte]
  rw [parseStringBody_escList k.data _ _
    (by
      have h1 := escList_length_ge k.data
      simp only [List.length_append, List.length_cons]
      omega)]
  rw [Option.some_bind]
  rw [show skipWs (':' :: ' ' :: (vc ++ X)) = ':' :: ' ' :: (vc ++ X) from
    skipWs_cons_of_not_ws (by decide) _]
  rw [parseMembersColon]
  simp only [Char.reduceEq, reduceIte]
  rw [show skipWs (' ' :: (vc ++ X)) = vc ++ X from by
    rw [skipWs, show isWsChar ' ' = true from by decide]
    simpa using hws]
  rw [hval, Option.some_bind]

/-- The exact character stream `AsJSON` produces for a record with string
identity fields and integer port/pid fields (keys in sorted order, 4-space
indentation, `': '` and `','` separators). -/
def runDataJsonChars (sid sn hh : String) (port pid : Int) : List Char :=
  '\x7b' :: '\n' :: ' ' :: ' ' :: ' ' :: ' ' ::
    (encodeStr "http_host" ++ (':' :: ' ' :: (encodeStr hh ++
    (',' :: '\n' :: ' ' :: ' ' :: ' ' :: ' ' ::
    (encodeStr "http_port" ++ (':' :: ' ' :: (intRepr port ++
    (',' :: '\n' :: ' ' :: ' ' :: ' ' :: ' ' ::
    (encodeStr "pid" ++ (':' :: ' ' :: (intRepr pid ++
    (',' :: '\n' :: ' ' :: ' ' :: ' ' :: ' ' ::
    (encodeStr "script_name" ++ (':' :: ' ' :: (encodeStr sn ++
    (',' :: '\n' :: ' ' :: ' ' :: ' ' :: ' ' ::
    (encodeStr "station_id" ++ (':' :: ' ' :: (encodeStr sid ++
    ('\n' :: '\x7d' :: []))))))))))))))))))))

theorem asJSON_data_eq (sid sn hh : String) (port pid : Int) :
    (RunData.AsJSON ⟨.str sid, .str sn, .str hh, .int port, .int pid⟩).data =
      runDataJsonChars sid sn hh port pid := by
  have hdict : insertKV (RunData.asdict ⟨.str sid, .str sn, .str hh, .int port, .int pid⟩)
      "http_host" (.str hh) =
      [("http_host", Json.str hh), ("http_port", Json.int port), ("pid", Json.int pid),
       ("script_name", Json.str sn), ("station_id", Json.str sid)] := rfl
  rw [RunData.AsJSON]
  rw [show (String.mk (dumpsVal 0 (.obj (insertKV
      (RunData.asdict ⟨.str sid, .str sn, .str hh, .int port, .int pid⟩)
      "http_host" (.str hh))))).data
    = dumpsVal 0 (.obj (insertKV
      (RunData.asdict ⟨.str sid, .str sn, .str hh, .int port, .int pid⟩)
      "http_host" (.str hh))) from rfl]
  rw [hdict]
  rw [dumpsVal, dumpsVal, dumpsMembers, dumpsVal, dumpsMembers, dumpsVal, dumpsMembers,
    dumpsVal, dumpsMembers, dumpsVal, dumpsMembers]
  simp only [newlineIndent, Nat.reduceMul, List.replicate, runDataJsonChars,
    List.append_assoc, List.cons_append, List.nil_append, List.append_nil]

theorem parseObjRest_key (fuel : Nat) (k : String) (Z : List Char) :
    parseObjRest (fuel + 1) (encodeStr k ++ Z) =
      (parseMembers fuel (encodeStr k ++ Z) []).map fun p => (.obj p.1, p.2) := by
  rw [show encodeStr k ++ Z = '"' :: (escList k.data ++ ('"' :: Z)) from by simp [encodeStr]]
  rw [parseObjRest]
  simp only [Char.reduceEq, reduceIte]

theorem parseMembersSep_comma (fuel : Nat) (R : List Char) (acc : List (String × Json)) :
    parseMembersSep (fuel + 1) (',' :: R) acc = parseMembers fuel (skipWs R) acc := by
  rw [parseMembersSep]
  simp only [Char.reduceEq, reduceIte]

theorem parseMembersSep_close (fuel : Nat) (R : List Char) (acc : List (String × Json)) :
    parseMembersSep (fuel + 1) ('\x7d' :: R) acc = some (acc, R) := by
  rw [parseMembersSep]
  simp only [Char.reduceEq, reduceIte]

theorem skipWs_indent_encodeStr (k : String) (Z : List Char) :
    skipWs ('\n' :: ' ' :: ' ' :: ' ' :: ' ' :: (encodeStr k ++ Z)) = encodeStr k ++ Z := by
  rw [skipWs, skipWs, skipWs, skipWs, skipWs]
  simp only [show isWsChar '\n' = true from by decide, show isWsChar ' ' = true from by decide,
    if_true]
  exact skipWs_encodeStr k Z

theorem nonDigitStart_comma (R : List Char) : nonDigitStart (',' :: R) := by
  show ¬ (48 ≤ ','.toNat ∧ ','.toNat ≤ 57)
  decide

/-- Parsing the serialised record: the five members are decoded in file
order and inserted into the result dict, yielding the record's dict. -/
theorem parseValue_runData (f : Nat) (sid sn hh : String) (port pid : Int) :
    parseValue (f + 17) (runDataJsonChars sid sn hh port pid) =
      some (.obj [("http_host", .str hh), ("http_port", .int port), ("pid", .int pid),
        ("script_name", .str sn), ("station_id", .str sid)], []) := by
  rw [runDataJsonChars, parseValue]
  simp only [Char.reduceEq, reduceIte]
  rw [show (f + 16) = (f + 15) + 1 from rfl, skipWs_indent_encodeStr, parseObjRest_key]
  rw [show (f + 15) = (f + 13) + 2 from rfl,
    parseMembers_step (f + 13) "http_host" (.str hh) (encodeStr hh) _ []
      (parseValue_encodeStr (f + 12) hh _) (skipWs_encodeStr hh _)]
  rw [skipWs_cons_of_not_ws (by decide : isWsChar ',' = false),
    show (f + 13) = (f + 12) + 1 from rfl, parseMembersSep_comma, skipWs_indent_encodeStr]
  rw [show (f + 12) = (f + 10) + 2 from rfl,
    parseMembers_step (f + 10) "http_port" (.int port) (intRepr port) _ _
      (parseValue_intRepr (f + 9) port _ (nonDigitStart_comma _))
      (skipWs_intRepr port _)]
  rw [skipWs_cons_of_not_ws (by decide : isWsChar ',' = false),
    show (f + 10) = (f + 9) + 1 from rfl, parseMembersSep_comma, skipWs_indent_encodeStr]
  rw [show (f + 9) = (f + 7) + 2 from rfl,
    parseMembers_step (f + 7) "pid" (.int pid) (intRepr pid) _ _
      (parseValue_intRepr (f + 6) pid _ (nonDigitStart_comma _))
      (skipWs_intRepr pid _)]
  rw [skipWs_cons_of_not_ws (by decide : isWsChar ',' = false),
    show (f + 7) = (f + 6) + 1 from rfl, parseMembersSep_comma, skipWs_indent_encodeStr]
  rw [show (f + 6) = (f + 4) + 2 from rfl,
    parseMembers_step (f + 4) "script_name" (.str sn) (encodeStr sn) _ _
      (parseValue_encodeStr (f + 3) sn _) (skipWs_encodeStr sn _)]
  rw [skipWs_cons_of_not_ws (by decide : isWsChar ',' = false),
    show (f + 4) = (f + 3) + 1 from rfl, parseMembersSep_comma, skipWs_indent_encodeStr]
  rw [show (f + 3) = (f + 1) + 2 from rfl,
    parseMembers_step (f + 1) "station_id" (.str sid) (encodeStr sid) _ _
      (parseValue_encodeStr f sid _) (skipWs_encodeStr sid _)]
  rw [show skipWs ('\n' :: '\x7d' :: []) = '\x7d' :: [] from rfl,
    show (f + 1) = f + 1 from rfl, parseMembersSep_close]
  rfl

theorem runDataJsonChars_length_ge (sid sn hh : String) (port pid : Int) :
    30 ≤ (runDataJsonChars sid sn hh port pid).length := by
  rw [runDataJsonChars]
  simp only [List.length_cons, List.length_append]
  omega

theorem jsonLoads_asJSON (sid sn hh : String) (port pid : Int) :
    jsonLoads (RunData.AsJSON ⟨.str sid, .str sn, .str hh, .int port, .int pid⟩) =
      some (.obj [("http_host", .str hh), ("http_port", .int port), ("pid", .int pid),
        ("script_name", .str sn), ("station_id", .str sid)]) := by
  have hdata := asJSON_data_eq sid sn hh port pid
  have hlen : (RunData.AsJSON ⟨.str sid, .str sn, .str hh, .int port, .int pid⟩).length
      = (runDataJsonChars sid sn hh port pid).length := by
    rw [show (RunData.AsJSON ⟨.str sid, .str sn, .str hh, .int port, .int pid⟩).length
      = (RunData.AsJSON ⟨.str sid, .str sn, .str hh, .int port, .int pid⟩).data.length
      from rfl, hdata]
  rw [jsonLoads, hdata, hlen]
  have hge := runDataJsonChars_length_ge sid sn hh port pid
  rw [show 3 * ((runDataJsonChars sid sn hh port pid).length + 1)
    = (3 * ((runDataJsonChars sid sn hh port pid).length + 1) - 17) + 17 from by omega]
  rw [show skipWs (runDataJsonChars sid sn hh port pid)
      = runDataJsonChars sid sn hh port pid from by
    rw [runDataJsonChars]
    exact skipWs_cons_of_not_ws (by decide) _]
  rw [parseValue_runData]
  rw [Option.some_bind]
  simp only [skipWs, reduceIte]

/-- Round-trip at the content level: decoding the text `AsJSON` produced for
a record with string identity fields and integer port/pid yields the record
back, field for field. -/
theorem fromFileContent_asJSON (sid sn hh : String) (port pid : Int) :
    RunData.FromFileContent (RunData.AsJSON ⟨.str sid, .str sn, .str hh, .int port, .int pid⟩)
      = .ok ⟨.str sid, .str sn, .str hh, .int port, .int pid⟩ := by
  rw [RunData.FromFileContent.eq_def, jsonLoads_asJSON]
  rfl

/-! Strict field matching facts. -/

theorem mem_of_lookup {l : List (String × Json)} {k : String} {v : Json}
    (h : l.lookup k = some v) : k ∈ l.map Prod.fst := by
  induction l with
  | nil => simp [List.lookup] at h
  | cons p rest ih =>
    obtain ⟨k', v'⟩ := p
    rw [List.lookup_cons] at h
    cases hb : (k == k') with
    | true =>
      simp only [List.map_cons]
      exact List.mem_cons.mpr (Or.inl (eq_of_beq hb))
    | false =>
      rw [hb] at h
      simp only [List.map_cons]
      exact List.mem_cons.mpr (Or.inr (ih h))

/-- Constructor binding rejects any dict whose key multiset is not exactly
the five field names: `cls(**decoded)` raises a `TypeError` (SchemaError
class) on both missing and unexpected keyword arguments. -/
theorem fromDecoded_not_perm {kvs : List (String × Json)}
    (h : ¬ (kvs.map Prod.fst).Perm
      ["http_host", "http_port", "pid", "script_name", "station_id"]) :
    RunData.fromDecoded (.obj kvs) = .error .schemaError := by
  rcases h1 : kvs.lookup "station_id" with _ | sid <;>
    rcases h2 : kvs.lookup "script_name" with _ | sn <;>
      rcases h3 : kvs.lookup "http_host" with _ | hh <;>
        rcases h4 : kvs.lookup "http_port" with _ | hp <;>
          rcases h5 : kvs.lookup "pid" with _ | p <;>
            simp only [RunData.fromDecoded, h1, h2, h3, h4, h5]
  by_cases hlen : kvs.length = 5
  · exfalso
    apply h
    have hsub : ["http_host", "http_port", "pid", "script_name", "station_id"]
        ⊆ kvs.map Prod.fst := by
      intro x hx
      simp only [List.mem_cons, List.not_mem_nil, or_false] at hx
      rcases hx with rfl | rfl | rfl | rfl | rfl
      · exact mem_of_lookup h3
      · exact mem_of_lookup h4
      · exact mem_of_lookup h5
      · exact mem_of_lookup h2
      · exact mem_of_lookup h1
    have hsp := List.subperm_of_subset (by decide) hsub
    have hperm := hsp.perm_of_length_le (by simp [hlen])
    exact hperm.symm
  · rw [if_neg hlen]

/-! Filesystem and directory-scan helper lemmas. -/

theorem lookup_writeFile_self (fs : FileSystem) (path content : String) :
    (writeFile fs path content).lookup path = some content := by
  induction fs with
  | nil => simp [writeFile, List.lookup]
  | cons pc rest ih =>
    obtain ⟨p, c⟩ := pc
    rw [writeFile]
    by_cases hp : p = path
    · rw [if_pos hp, List.lookup_cons]
      subst hp
      simp
    · rw [if_neg hp, List.lookup_cons]
      have : (path == p) = false := by
        simp only [beq_eq_false_iff_ne, ne_eq]
        exact fun h => hp h.symm
      rw [this]
      exact ih

theorem lookup_writeFile_other (fs : FileSystem) (path content q : String)
    (hq : q ≠ path) : (writeFile fs path content).lookup q = fs.lookup q := by
  induction fs with
  | nil =>
    rw [writeFile, List.lookup_cons]
    have : (q == path) = false := by simpa using hq
    rw [this]
  | cons pc rest ih =>
    obtain ⟨p, c⟩ := pc
    rw [writeFile]
    by_cases hp : p = path
    · rw [if_pos hp, List.lookup_cons, List.lookup_cons]
      subst hp
      have : (q == p) = false := by simpa using hq
      rw [this]
    · rw [if_neg hp, List.lookup_cons, List.lookup_cons]
      cases hb : (q == p)
      · exact ih
      · rfl

theorem mapExcept_error_after_ok {α β : Type} {f : α → Except RunDataError β}
    {e : RunDataError} (pre : List α) (a : α) (post : List α)
    (hpre : ∀ x ∈ pre, ∃ b, f x = .ok b) (ha : f a = .error e) :
    mapExcept f (pre ++ a :: post) = .error e := by
  induction pre with
  | nil => simp [mapExcept, ha]
  | cons x xs ih =>
    obtain ⟨b, hb⟩ := hpre x (by simp)
    rw [List.cons_append, mapExcept, hb, ih fun y hy => hpre y (by simp [hy])]

theorem mapExcept_ok_of_all {α β : Type} {f : α → Except RunDataError β} (l : List α)
    (h : ∀ x ∈ l, ∃ b, f x = .ok b) :
    ∃ bs, mapExcept f l = .ok bs ∧ bs.length = l.length ∧
      ∀ (i : Nat) (hi : i < l.length) (hi2 : i < bs.length),
        f (l.get ⟨i, hi⟩) = .ok (bs.get ⟨i, hi2⟩) := by
  induction l with
  | nil => exact ⟨[], rfl, rfl, fun i hi => by simp at hi⟩
  | cons x xs ih =>
    obtain ⟨b, hb⟩ := h x (by simp)
    obtain ⟨bs, hbs, hlen, hidx⟩ := ih fun y hy => h y (by simp [hy])
    refine ⟨b :: bs, ?_, by simp [hlen], ?_⟩
    · rw [mapExcept, hb, hbs]
    · intro i hi hi2
      match i with
      | 0 => simpa using hb
      | j + 1 =>
        simp only [List.get_cons_succ]
        exact hidx j (by simpa using hi) (by simpa using hi2)

/-! String-level helpers for stating the encoder format. -/

theorem string_data_append (a b : String) : (a ++ b).data = a.data ++ b.data := rfl

theorem string_data_mk (cs : List Char) : (String.mk cs).data = cs := rfl

theorem string_data_inj {a b : String} (h : a.data = b.data) : a = b := by
  cases a
  cases b
  exact congrArg String.mk h

/-- Claim C1: for every StationRecord with its five fields (string
`station_id`, `script_name`, `http_host` and integer `http_port`, `pid`),
decoding the text produced by encoding it (`FromFile` applied to content
written by `AsJSON`) yields a record equal field-for-field to the
original. -/
theorem claim_c1 (sid sn hh : String) (port pid : Int) :
    RunData.FromFileContent (RunData.AsJSON ⟨.str sid, .str sn, .str hh, .int port, .int pid⟩)
      = .ok ⟨.str sid, .str sn, .str hh, .int port, .int pid⟩ :=
  fromFileContent_asJSON sid sn hh port pid

/-- Claim C4: the encoding is deterministic (it is a pure function of the
field values, so two calls on an identical record are byte-identical) and
serialises the five keys in ascending lexicographic order
(`http_host`, `http_port`, `pid`, `script_name`, `station_id`) with 4-space
indentation, a colon-space key/value separator, and a comma item separator
placed directly before the newline with no trailing space. -/
theorem claim_c4 (sid sn hh : String) (port pid : Int) :
    RunData.AsJSON ⟨.str sid, .str sn, .str hh, .int port, .int pid⟩ =
      "\x7b\n    \"http_host\": " ++ String.mk (encodeStr hh) ++ ",\n    \"http_port\": " ++
      String.mk (intRepr port) ++ ",\n    \"pid\": " ++ String.mk (intRepr pid) ++
      ",\n    \"script_name\": " ++ String.mk (encodeStr sn) ++ ",\n    \"station_id\": " ++
      String.mk (encodeStr sid) ++ "\n\x7d" := by
  apply string_data_inj
  rw [asJSON_data_eq, runDataJsonChars]
  simp only [string_data_append, string_data_mk]
  simp [show encodeStr "http_host" = "\"http_host\"".data from by decide,
    show encodeStr "http_port" = "\"http_port\"".data from by decide,
    show encodeStr "pid" = "\"pid\"".data from by decide,
    show encodeStr "script_name" = "\"script_name\"".data from by decide,
    show encodeStr "station_id" = "\"station_id\"".data from by decide,
    List.append_assoc]

/-- Claim C2: decoding syntactically valid content whose key set is not
exactly the five required keys (whether a required field is missing or an
extra unknown field is present) fails with the SchemaError-class error of
the strict constructor binding. -/
theorem claim_c2 (s : String) (kvs : List (String × Json))
    (hload : jsonLoads s = some (.obj kvs))
    (hkeys : ¬ (kvs.map Prod.fst).Perm
      ["http_host", "http_port", "pid", "script_name", "station_id"]) :
    RunData.FromFileContent s = .error .schemaError := by
  rw [RunData.FromFileContent.eq_def, hload]
  exact fromDecoded_not_perm hkeys

theorem claim_c2_witness :
    RunData.FromFileContent
        "\x7b\"station_id\": \"s\", \"script_name\": \"x\", \"http_host\": \"h\", \"http_port\": 80\x7d"
      = .error .schemaError :=
  claim_c2 _
    [("http_host", .str "h"), ("http_port", .int 80), ("script_name", .str "x"),
     ("station_id", .str "s")]
    rfl (fun hp => by simpa using hp.length_eq)

/-- Claim C10 (implicit): decoding a file whose content is syntactically
valid but not a key/value mapping at the top level (a list, number, string,
boolean or null) fails with the SchemaError-class constructor-binding error,
never with a ParseError, and never constructs a record. -/
theorem claim_c10 (s : String) (j : Json) (hload : jsonLoads s = some j)
    (hnotobj : ∀ kvs, j ≠ .obj kvs) :
    RunData.FromFileContent s = .error .schemaError := by
  rw [RunData.FromFileContent.eq_def, hload]
  cases j with
  | obj kvs => exact absurd rfl (hnotobj kvs)
  | null => rfl
  | bool b => rfl
  | int n => rfl
  | str t => rfl
  | arr items => rfl

theorem claim_c10_witness :
    RunData.FromFileContent "[1, 2]" = .error .schemaError :=
  claim_c10 "[1, 2]" (.arr [.int 1, .int 2]) rfl (fun _ h => Json.noConfusion h)

/-- Claim C3 as stated is false on the code: decoding a mapping whose five
keys are all present but whose `pid` value is a string succeeds (the
namedtuple constructor performs no type validation), instead of failing
with a SchemaError-class error. -/
theorem claim_c3_counterexample :
    RunData.FromFileContent
        "\x7b\"station_id\": \"s\", \"script_name\": \"x.py\", \"http_host\": \"localhost\", \"http_port\": 80, \"pid\": \"not-an-int\"\x7d"
      = .ok ⟨.str "s", .str "x.py", .str "localhost", .int 80, .str "not-an-int"⟩ := rfl

/-- Claim C3 (amended): record construction from file content fails with a
ParseError-class error when the content is not well-formed structured text;
when the content is a mapping with exactly the five required keys, the
values are bound without any type or shape validation, whatever their
shapes. -/
theorem claim_c3 :
    (∀ s : String, jsonLoads s = none →
      RunData.FromFileContent s = .error .parseError) ∧
    (∀ (s : String) (sid sn hh hp p : Json),
      jsonLoads s = some (.obj [("http_host", hh), ("http_port", hp), ("pid", p),
        ("script_name", sn), ("station_id", sid)]) →
      RunData.FromFileContent s = .ok ⟨sid, sn, hh, hp, p⟩) := by
  constructor
  · intro s h
    rw [RunData.FromFileContent.eq_def, h]
  · intro s sid sn hh hp p h
    rw [RunData.FromFileContent.eq_def, h]
    rfl

theorem claim_c3_witness :
    RunData.FromFileContent "\x7b" = .error .parseError ∧
    RunData.FromFileContent
        "\x7b\"station_id\": \"s\", \"script_name\": \"x.py\", \"http_host\": \"localhost\", \"http_port\": 80, \"pid\": \"not-an-int\"\x7d"
      = .ok ⟨.str "s", .str "x.py", .str "localhost", .int 80, .str "not-an-int"⟩ :=
  ⟨claim_c3.1 "\x7b" rfl,
   claim_c3.2 _ (.str "s") (.str "x.py") (.str "localhost") (.int 80)
     (.str "not-an-int") rfl⟩

/-- Claim C5: persisting a record writes its canonical encoding to exactly
one file, at the path obtained by joining the directory with `station_id`
(for a directory without trailing slash and a relative `station_id` this is
`directory ++ "/" ++ station_id`), overwriting any existing file at that
path, leaving every other path untouched, and returns exactly that path. -/
theorem claim_c5 (r : RunData) (directory sid : String) (fs : FileSystem)
    (hsid : r.station_id = .str sid) :
    RunData.SaveToFile r directory fs =
        some (osPathJoin directory sid, writeFile fs (osPathJoin directory sid) r.AsJSON) ∧
    (writeFile fs (osPathJoin directory sid) r.AsJSON).lookup (osPathJoin directory sid)
        = some r.AsJSON ∧
    (∀ q, q ≠ osPathJoin directory sid →
      (writeFile fs (osPathJoin directory sid) r.AsJSON).lookup q = fs.lookup q) ∧
    (¬ sid.data.head? = some '/' → ¬ directory = "" → ¬ directory.data.getLast? = some '/' →
      osPathJoin directory sid = directory ++ "/" ++ sid) := by
  refine ⟨?_, lookup_writeFile_self fs _ _, fun q hq => lookup_writeFile_other fs _ _ q hq, ?_⟩
  · rw [RunData.SaveToFile.eq_def, hsid]
  · intro h1 h2 h3
    rw [osPathJoin, if_neg h1, if_neg h2, if_neg h3]

theorem claim_c5_witness :
    RunData.SaveToFile ⟨.str "station-A", .str "x.py", .str "localhost", .int 80, .int 7⟩
        "/var/run/openhtf" [] =
      some (osPathJoin "/var/run/openhtf" "station-A",
        writeFile [] (osPathJoin "/var/run/openhtf" "station-A")
          (RunData.AsJSON ⟨.str "station-A", .str "x.py", .str "localhost", .int 80, .int 7⟩)) ∧
    (writeFile [] (osPathJoin "/var/run/openhtf" "station-A")
        (RunData.AsJSON ⟨.str "station-A", .str "x.py", .str "localhost", .int 80, .int 7⟩)).lookup
        (osPathJoin "/var/run/openhtf" "station-A")
      = some (RunData.AsJSON ⟨.str "station-A", .str "x.py", .str "localhost", .int 80, .int 7⟩) ∧
    (writeFile [] (osPathJoin "/var/run/openhtf" "station-A")
        (RunData.AsJSON ⟨.str "station-A", .str "x.py", .str "localhost", .int 80, .int 7⟩)).lookup
        "/var/run/openhtf/station-B"
      = List.lookup "/var/run/openhtf/station-B" ([] : FileSystem) ∧
    osPathJoin "/var/run/openhtf" "station-A" = "/var/run/openhtf" ++ "/" ++ "station-A" :=
  ⟨(claim_c5 ⟨.str "station-A", .str "x.py", .str "localhost", .int 80, .int 7⟩
      "/var/run/openhtf" "station-A" [] rfl).1,
   (claim_c5 ⟨.str "station-A", .str "x.py", .str "localhost", .int 80, .int 7⟩
      "/var/run/openhtf" "station-A" [] rfl).2.1,
   (claim_c5 ⟨.str "station-A", .str "x.py", .str "localhost", .int 80, .int 7⟩
      "/var/run/openhtf" "station-A" [] rfl).2.2.1 "/var/run/openhtf/station-B" (by decide),
   (claim_c5 ⟨.str "station-A", .str "x.py", .str "localhost", .int 80, .int 7⟩
      "/var/run/openhtf" "station-A" [] rfl).2.2.2 (by decide) (by decide) (by decide)⟩

/-- Claim C6: for a record whose pid is an integer, the liveness probe
always returns a boolean and converts every OS-level probe failure
(process absent, permission denied, or any other `OSError`) into `false`;
it returns `true` exactly when the OS confirms the pid by returning
normally from the null-signal `kill`. -/
theorem claim_c6 (osKill : Int → KillOutcome) (r : RunData) (p : Int)
    (hp : r.pid = .int p) :
    (RunData.IsAlive osKill r = some true ↔ osKill p = .success) ∧
    (RunData.IsAlive osKill r = some false ↔ ∃ e, osKill p = .raises e) := by
  rw [RunData.IsAlive.eq_def, hp]
  cases hk : osKill p with
  | success => simp [hk]
  | raises e =>
    simp only [hk]
    constructor
    · constructor
      · intro h
        cases h
      · intro h
        cases h
    · constructor
      · intro _
        exact ⟨e, rfl⟩
      · intro _
        trivial

theorem claim_c6_witness :
    RunData.IsAlive (fun q => if q = 7 then KillOutcome.success else .raises .esrch)
        ⟨.str "s", .str "x.py", .str "h", .int 80, .int 7⟩ = some true ∧
    RunData.IsAlive (fun q => if q = 7 then KillOutcome.success else .raises .esrch)
        ⟨.str "s", .str "x.py", .str "h", .int 80, .int 99999⟩ = some false :=
  ⟨(claim_c6 (fun q => if q = 7 then KillOutcome.success else .raises .esrch)
      ⟨.str "s", .str "x.py", .str "h", .int 80, .int 7⟩ 7 rfl).1.mpr (by decide),
   (claim_c6 (fun q => if q = 7 then KillOutcome.success else .raises .esrch)
      ⟨.str "s", .str "x.py", .str "h", .int 80, .int 99999⟩ 99999 rfl).2.mpr
     ⟨.esrch, by decide⟩⟩

/-- Claim C7: a ParseError-class failure while constructing a record from a
file is not recovered anywhere in the module: during directory enumeration,
a syntactically malformed file (with every earlier file decoding cleanly)
makes the whole enumeration propagate the ParseError to the caller.  -/
theorem claim_c7 (pre post : List DirEntry) (name content : String)
    (hbad : jsonLoads content = none)
    (hpre : ∀ c ∈ pre.filterMap entryFileContent,
      ∃ rec, RunData.FromFileContent c = .ok rec) :
    EnumerateRunDirectory (pre ++ .file name content :: post) = .error .parseError := by
  rw [EnumerateRunDirectory, List.filterMap_append]
  rw [show List.filterMap entryFileContent (DirEntry.file name content :: post)
    = content :: List.filterMap entryFileContent post from by
      simp [List.filterMap_cons, entryFileContent]]
  exact mapExcept_error_after_ok _ content _ hpre
    (by rw [RunData.FromFileContent.eq_def, hbad])

theorem claim_c7_witness :
    EnumerateRunDirectory ([] ++ .file "corrupt" "\x7b" :: []) = .error .parseError :=
  claim_c7 [] [] "corrupt" "\x7b" rfl (by simp)

/-- Claim C8: enumeration parses only the direct regular-file entries:
removing a subdirectory entry (whatever its contents) from the listing does
not change the result, and a directory holding one valid record file plus
one subdirectory yields exactly the one record, without error. -/
theorem claim_c8 :
    (∀ (pre post : List DirEntry) (name : String) (sub : List DirEntry),
      EnumerateRunDirectory (pre ++ .subdir name sub :: post)
        = EnumerateRunDirectory (pre ++ post)) ∧
    (∀ (name content subname : String) (sub : List DirEntry) (rec : RunData),
      RunData.FromFileContent content = .ok rec →
      EnumerateRunDirectory [.file name content, .subdir subname sub] = .ok [rec]) := by
  constructor
  · intro pre post name sub
    rw [EnumerateRunDirectory, EnumerateRunDirectory, List.filterMap_append,
      List.filterMap_append]
    rw [show List.filterMap entryFileContent (DirEntry.subdir name sub :: post)
      = List.filterMap entryFileContent post from by
        simp [List.filterMap_cons, entryFileContent]]
  · intro name content subname sub rec h
    rw [EnumerateRunDirectory]
    rw [show List.filterMap entryFileContent [DirEntry.file name content, .subdir subname sub]
      = [content] from by simp [List.filterMap_cons, entryFileContent]]
    rw [mapExcept, h, mapExcept]

theorem claim_c8_witness :
    EnumerateRunDirectory
        [.file "station-A" "\x7b\"http_host\": \"h\", \"http_port\": 80, \"pid\": 7, \"script_name\": \"x\", \"station_id\": \"station-A\"\x7d",
         .subdir "nested" [.file "junk" "not json"]]
      = .ok [⟨.str "station-A", .str "x", .str "h", .int 80, .int 7⟩] :=
  claim_c8.2 "station-A"
    "\x7b\"http_host\": \"h\", \"http_port\": 80, \"pid\": 7, \"script_name\": \"x\", \"station_id\": \"station-A\"\x7d"
    "nested" [.file "junk" "not json"]
    ⟨.str "station-A", .str "x", .str "h", .int 80, .int 7⟩ rfl

/-- Claim C9: when every file entry of the listing decodes, enumeration
returns one record per file, each the decoding of that file's content, in
the order the directory listing yields the files — the scanner applies no
reordering. -/
theorem claim_c9 (entries : List DirEntry) (recs : List RunData)
    (hlen : recs.length = (entries.filterMap entryFileContent).length)
    (h : ∀ (i : Nat) (hi : i < (entries.filterMap entryFileContent).length)
      (hi2 : i < recs.length),
      RunData.FromFileContent ((entries.filterMap entryFileContent).get ⟨i, hi⟩)
        = .ok (recs.get ⟨i, hi2⟩)) :
    EnumerateRunDirectory entries = .ok recs := by
  rw [EnumerateRunDirectory]
  have main : ∀ (cs : List String) (rs : List RunData), rs.length = cs.length →
      (∀ (i : Nat) (hi : i < cs.length) (hi2 : i < rs.length),
        RunData.FromFileContent (cs.get ⟨i, hi⟩) = .ok (rs.get ⟨i, hi2⟩)) →
      mapExcept RunData.FromFileContent cs = .ok rs := by
    intro cs
    induction cs with
    | nil =>
      intro rs hl _
      match rs, hl with
      | [], _ => rfl
    | cons c cs ih =>
      intro rs hl hp
      match rs, hl with
      | r :: rs, hl =>
        have h0 := hp 0 (by simp) (by simp)
        simp only [List.get] at h0
        rw [mapExcept, h0, ih rs (by simpa using hl) fun i hi hi2 => by
          have := hp (i + 1) (by simpa using hi) (by simpa using hi2)
          simpa using this]
  exact main _ recs hlen h

theorem claim_c9_witness :
    EnumerateRunDirectory
        [.file "a" "\x7b\"http_host\": \"h\", \"http_port\": 1, \"pid\": 10, \"script_name\": \"x\", \"station_id\": \"a\"\x7d",
         .file "b" "\x7b\"http_host\": \"h\", \"http_port\": 2, \"pid\": 20, \"script_name\": \"y\", \"station_id\": \"b\"\x7d",
         .file "c" "\x7b\"http_host\": \"h\", \"http_port\": 3, \"pid\": 30, \"script_name\": \"z\", \"station_id\": \"c\"\x7d"]
      = .ok [⟨.str "a", .str "x", .str "h", .int 1, .int 10⟩,
             ⟨.str "b", .str "y", .str "h", .int 2, .int 20⟩,
             ⟨.str "c", .str "z", .str "h", .int 3, .int 30⟩] :=
  claim_c9 _ _ rfl (by
    intro i hi hi2
    simp only [List.filterMap_cons, entryFileContent, List.filterMap_nil] at hi
    match i, hi with
    | 0, _ => rfl
    | 1, _ => rfl
    | 2, _ => rfl)
